import Mathlib

/-!
Shallow embedding of the GeoAccuRate domain statistics engine
(`src/geoaccurate/domain/*.py`) and proofs about it.

Modelling conventions:
* Python floats are modelled as exact real numbers (`ℝ`), or as rationals
  (`ℚ`) where the code is purely rational arithmetic; tolerance statements
  (1e-9, 1e-10) are settled by proving the exact identity, which implies
  any positive tolerance.
* Confusion matrices of counts are functions `Fin k → Fin k → ℕ`
  (rows = reference, columns = classified, as in the source).
* Python `raise ValueError(...)` is modelled as `Except.error` with a
  structured `GeoError` value naming the error kind; warning message
  strings are modelled as structured values recording the data
  interpolated into the message.
* Python dicts keyed by class labels are modelled either as functions on
  `Fin k` (when the label set is the fixed ordered `class_labels` tuple)
  or as association lists `List (ℤ × _)` (when key membership matters).
* `float('nan')` sentinels are modelled as `Option ℝ` with `none` for NaN.
-/

namespace GeoAccuRate

/-- Error kinds raised by the core (spec §7 taxonomy; all are Python
`ValueError`s distinguished by message). -/
inductive GeoError where
  | invalidParameter
  | emptyInput
  | lengthMismatch
  | shapeMismatch
  | invalidInput
  | missingArea
  | zeroSampleColumn
  | invariantViolation
  deriving DecidableEq, Repr

/-! ## confidence.py -/

namespace Confidence

/-- `wilson_ci(p, n, z)` from `src/geoaccurate/domain/confidence.py`:
Wilson score confidence interval for a proportion.  Returns `(0, 1)` for
`n = 0`; otherwise computes center and spread and clamps to `[0, 1]`. -/
noncomputable def wilson_ci (p : ℝ) (n : ℕ) (z : ℝ) : ℝ × ℝ :=
  if n = 0 then (0, 1)
  else
    let z2 := z * z
    let denom := 1 + z2 / n
    let center := (p + z2 / (2 * n)) / denom
    let spread := z * Real.sqrt (p * (1 - p) / n + z2 / (4 * n * n)) / denom
    (max 0 (center - spread), min 1 (center + spread))

/-- `kappa_ci(kappa, p_o, p_e, n, z)` from `confidence.py`: large-sample
normal-approximation CI for Cohen's Kappa.  Returns `(0, 0)` when `n = 0`
or `p_e = 1`. -/
noncomputable def kappa_ci (kappa p_o p_e : ℝ) (n : ℕ) (z : ℝ) : ℝ × ℝ :=
  if n = 0 ∨ p_e = 1 then (0, 0)
  else
    let var_k := p_o * (1 - p_o) / (n * (1 - p_e) ^ 2)
    let se_k := Real.sqrt var_k
    (kappa - z * se_k, kappa + z * se_k)

/-- Rational-approximation branch of `_probit` (Abramowitz & Stegun
26.2.23), applied by the source for `p ≥ 0.5`. -/
noncomputable def probitApprox (p : ℝ) : ℝ :=
  let t := Real.sqrt (-2 * Real.log (1 - p))
  t - (2.515517 + 0.802853 * t + 0.010328 * t * t) /
      (1 + 1.432788 * t + 0.189269 * t * t + 0.001308 * t * t * t)

/-- `_probit(p)` from `confidence.py`.  The source raises `ValueError`
for `p` outside the open interval `(0, 1)`; modelled as `Except`. -/
noncomputable def probit (p : ℝ) : Except GeoError ℝ :=
  if p ≤ 0 ∨ 1 ≤ p then .error .invalidParameter
  else if p < 1/2 then .ok (-(probitApprox (1 - p)))
  else .ok (probitApprox p)

/-- `z_score_for_confidence(level)` from `confidence.py`: lookup of the
`Z_SCORES` dict for the five standard levels, with fallback to the
inverse-normal-CDF approximation at `(1 + level)/2`.  The fallback's
`ValueError` (level not in `(0,1)`) propagates as `Except.error`. -/
noncomputable def z_score_for_confidence (level : ℝ) : Except GeoError ℝ :=
  if level = 0.80 then .ok 1.2816
  else if level = 0.85 then .ok 1.4395
  else if level = 0.90 then .ok 1.6449
  else if level = 0.95 then .ok 1.9600
  else if level = 0.99 then .ok 2.5758
  else probit ((1 + level) / 2)

end Confidence

/-! ## confusion_matrix.py — `normalize_confusion_matrix`

The matrix entries may be integer or float in the source; modelled as
exact rationals.  `axis : Fin 2` mirrors the `axis: int` parameter with
its two meaningful values (1 = row-normalize, 0 = column-normalize). -/

namespace ConfusionMatrix

/-- `normalize_confusion_matrix(matrix, axis)` from
`src/geoaccurate/domain/confusion_matrix.py`: normalizes to percentages
along the axis; a zero-sum row/column maps to all zeros (the
`np.where(totals == 0, 0.0, m / safe_totals * 100.0)` expression). -/
def normalize_confusion_matrix {k : ℕ} (m : Fin k → Fin k → ℚ) (axis : Fin 2) :
    Fin k → Fin k → ℚ :=
  fun i j =>
    let total : ℚ := if axis = 1 then ∑ j2, m i j2 else ∑ i2, m i2 j
    if total = 0 then 0 else m i j / total * 100

end ConfusionMatrix

/-! ## pontius.py

All arithmetic in `Pontius.compute` is rational (sums, divisions,
`abs`, `min`), so the module is embedded over `ℚ` and is executable. -/

namespace Pontius

/-- Total count `N = matrix.sum()`. -/
def Nval {k : ℕ} (m : Fin k → Fin k → ℕ) : ℚ :=
  ∑ i, ∑ j, (m i j : ℚ)

/-- `row_props[i] = matrix.sum(axis=1)[i] / N` (reference proportions). -/
def rowProp {k : ℕ} (m : Fin k → Fin k → ℕ) (i : Fin k) : ℚ :=
  (∑ j, (m i j : ℚ)) / Nval m

/-- `col_props[j] = matrix.sum(axis=0)[j] / N` (classified proportions). -/
def colProp {k : ℕ} (m : Fin k → Fin k → ℕ) (j : Fin k) : ℚ :=
  (∑ i, (m i j : ℚ)) / Nval m

/-- `diag_props[i] = matrix[i,i] / N` (agreement proportions). -/
def diagProp {k : ℕ} (m : Fin k → Fin k → ℕ) (i : Fin k) : ℚ :=
  (m i i : ℚ) / Nval m

/-- Quantity disagreement `qd = Σ_i |col_props[i] - row_props[i]| / 2`. -/
def QD {k : ℕ} (m : Fin k → Fin k → ℕ) : ℚ :=
  (∑ i, |colProp m i - rowProp m i|) / 2

/-- Allocation disagreement
`ad = Σ_i 2·min(commission_i, omission_i) / 2` where
`commission_i = col_props[i] - diag_props[i]` and
`omission_i = row_props[i] - diag_props[i]`. -/
def AD {k : ℕ} (m : Fin k → Fin k → ℕ) : ℚ :=
  (∑ i, 2 * min (colProp m i - diagProp m i) (rowProp m i - diagProp m i)) / 2

/-- Overall accuracy `oa = diag_props.sum()`. -/
def OA {k : ℕ} (m : Fin k → Fin k → ℕ) : ℚ :=
  ∑ i, diagProp m i

/-- `Pontius.compute(matrix)` from `src/geoaccurate/domain/pontius.py`:
raises on an empty matrix, computes `(qd, ad)`, and asserts the identity
`qd + ad = 1 - oa` within `1e-9`, raising `InvariantViolation` if it
fails. -/
def compute {k : ℕ} (m : Fin k → Fin k → ℕ) : Except GeoError (ℚ × ℚ) :=
  if Nval m = 0 then .error .emptyInput
  else if |QD m + AD m - (1 - OA m)| > 1e-9 then .error .invariantViolation
  else .ok (QD m, AD m)

end Pontius

/-! ## kappa.py

`Kappa.compute` feeds its values to `kappa_ci`, which takes a square
root, so this module is embedded over `ℝ`. -/

namespace Kappa

/-- `N = int(matrix.sum())`. -/
def Nval {k : ℕ} (m : Fin k → Fin k → ℕ) : ℕ :=
  ∑ i, ∑ j, m i j

/-- `p_o = diagonal.sum() / N` (observed agreement). -/
noncomputable def p_o {k : ℕ} (m : Fin k → Fin k → ℕ) : ℝ :=
  (∑ i, (m i i : ℝ)) / Nval m

/-- `p_e = (row_totals * col_totals).sum() / (N * N)` (expected
agreement). -/
noncomputable def p_e {k : ℕ} (m : Fin k → Fin k → ℕ) : ℝ :=
  (∑ i, (∑ j, (m i j : ℝ)) * (∑ j, (m j i : ℝ))) / (Nval m * Nval m)

/-- `Kappa.compute(matrix)` from `src/geoaccurate/domain/kappa.py`:
raises `EmptyInput` on `N = 0`; returns `(0, (0, 0))` by convention when
`|1 - p_e| < 1e-15`; otherwise `kappa = (p_o - p_e)/(1 - p_e)` with its
CI from `Confidence.kappa_ci` at the default `z = 1.96`. -/
noncomputable def compute {k : ℕ} (m : Fin k → Fin k → ℕ) :
    Except GeoError (ℝ × (ℝ × ℝ)) :=
  if Nval m = 0 then .error .emptyInput
  else if |1 - p_e m| < 1e-15 then .ok (0, (0, 0))
  else
    let kappa := (p_o m - p_e m) / (1 - p_e m)
    .ok (kappa, Confidence.kappa_ci kappa (p_o m) (p_e m) (Nval m) 1.96)

end Kappa

/-! ## olofsson.py

`class_labels` is an ordered tuple of distinct labels and every dict in
the source is keyed by `class_labels[i]`; labels are therefore
identified with their index `Fin k`.  The `label not in mapped_area_ha`
check (`MissingArea`) cannot fire in this embedding because
`mapped_area_ha` is a total function on `Fin k`; the remaining checks
are modelled in source order. -/

namespace Olofsson

/-- `AreaWeightedResult` from `src/geoaccurate/domain/models.py`,
restricted to the fields `Olofsson.compute` fills (dicts keyed by class
label become functions on `Fin k`; NaN-valued PA/UA entries become
`none`). -/
structure AreaWeightedResult (k : ℕ) where
  weight_per_class : Fin k → ℝ
  estimated_area_ha : Fin k → ℝ
  estimated_area_ci_ha : Fin k → ℝ × ℝ
  overall_accuracy_weighted : ℝ
  overall_accuracy_weighted_ci : ℝ × ℝ
  producers_accuracy_weighted : Fin k → Option ℝ
  users_accuracy_weighted : Fin k → Option ℝ
  mapped_area_ha : Fin k → ℝ

variable {k : ℕ}

/-- `A_total = sum(mapped_area_ha.values())`. -/
noncomputable def A_total (area : Fin k → ℝ) : ℝ := ∑ j, area j

/-- Area weights `W[j] = mapped_area_ha[j] / A_total`. -/
noncomputable def W (area : Fin k → ℝ) (j : Fin k) : ℝ := area j / A_total area

/-- Column totals `n_j = matrix.sum(axis=0)` (as floats). -/
def n_j (m : Fin k → Fin k → ℕ) (j : Fin k) : ℝ := ∑ i, (m i j : ℝ)

/-- Estimated proportion grid `p_hat[i,j] = W[j] * (matrix[i,j] / n_j[j])`. -/
noncomputable def p_hat (m : Fin k → Fin k → ℕ) (area : Fin k → ℝ)
    (i j : Fin k) : ℝ :=
  W area j * ((m i j : ℝ) / n_j m j)

/-- Estimated area per reference class
`A_hat[i] = A_total * p_hat[i,:].sum()`. -/
noncomputable def A_hat (m : Fin k → Fin k → ℕ) (area : Fin k → ℝ)
    (i : Fin k) : ℝ :=
  A_total area * ∑ j, p_hat m area i j

/-- Area-weighted overall accuracy `OA_w = Σ_i p_hat[i,i]`. -/
noncomputable def OA_w (m : Fin k → Fin k → ℕ) (area : Fin k → ℝ) : ℝ :=
  ∑ i, p_hat m area i i

/-- Area-weighted user's accuracy `UA_w[j] = p_hat[j,j] / colsum` when
the column sum is positive, NaN (modelled `none`) otherwise. -/
noncomputable def UA_w (m : Fin k → Fin k → ℕ) (area : Fin k → ℝ)
    (j : Fin k) : Option ℝ :=
  if 0 < ∑ i, p_hat m area i j then some (p_hat m area j j / ∑ i, p_hat m area i j)
  else none

/-- Area-weighted producer's accuracy `PA_w[i] = p_hat[i,i] / rowsum`
when the row sum is positive, NaN (modelled `none`) otherwise. -/
noncomputable def PA_w (m : Fin k → Fin k → ℕ) (area : Fin k → ℝ)
    (i : Fin k) : Option ℝ :=
  if 0 < ∑ j, p_hat m area i j then some (p_hat m area i i / ∑ j, p_hat m area i j)
  else none

/-- Variance sum for the estimated-area CI of class `i`:
`Σ_j W[j]² p_ij (1 - p_ij) / (n_j - 1)` over columns with `n_j > 1`. -/
noncomputable def areaVar (m : Fin k → Fin k → ℕ) (area : Fin k → ℝ)
    (i : Fin k) : ℝ :=
  ∑ j, if 1 < n_j m j then
      W area j ^ 2 * ((m i j : ℝ) / n_j m j) * (1 - (m i j : ℝ) / n_j m j) /
        (n_j m j - 1)
    else 0

/-- Estimated-area CI: `A_hat[i] ± z * A_total * sqrt(var)`. -/
noncomputable def areaCI (m : Fin k → Fin k → ℕ) (area : Fin k → ℝ)
    (z : ℝ) (i : Fin k) : ℝ × ℝ :=
  (A_hat m area i - z * (A_total area * Real.sqrt (areaVar m area i)),
   A_hat m area i + z * (A_total area * Real.sqrt (areaVar m area i)))

/-- Variance sum for the weighted-OA CI:
`Σ_j W[j]² UA_w[j] (1 - UA_w[j]) / (n_j - 1)` over columns with
`n_j > 1` and non-NaN `UA_w[j]`. -/
noncomputable def oaVar (m : Fin k → Fin k → ℕ) (area : Fin k → ℝ) : ℝ :=
  ∑ j, if 1 < n_j m j then
      match UA_w m area j with
      | some u => W area j ^ 2 * u * (1 - u) / (n_j m j - 1)
      | none => 0
    else 0

/-- Weighted-OA CI: `OA_w ± z * sqrt(var_oa)`. -/
noncomputable def oaCI (m : Fin k → Fin k → ℕ) (area : Fin k → ℝ)
    (z : ℝ) : ℝ × ℝ :=
  (OA_w m area - z * Real.sqrt (oaVar m area),
   OA_w m area + z * Real.sqrt (oaVar m area))

/-- The `AreaWeightedResult` record built at the end of
`Olofsson.compute` once all precondition checks have passed. -/
noncomputable def result (m : Fin k → Fin k → ℕ) (area : Fin k → ℝ)
    (z : ℝ) : AreaWeightedResult k where
  weight_per_class := W area
  estimated_area_ha := A_hat m area
  estimated_area_ci_ha := areaCI m area z
  overall_accuracy_weighted := OA_w m area
  overall_accuracy_weighted_ci := oaCI m area z
  producers_accuracy_weighted := PA_w m area
  users_accuracy_weighted := UA_w m area
  mapped_area_ha := area

/-- `Olofsson.compute(matrix, mapped_area_ha, class_labels, z)` from
`src/geoaccurate/domain/olofsson.py`.  The shape check and the
missing-area check are enforced by the types; the `A_total ≤ 0` and the
zero-sample-column checks are modelled in source order. -/
noncomputable def compute (m : Fin k → Fin k → ℕ) (area : Fin k → ℝ)
    (z : ℝ) : Except GeoError (AreaWeightedResult k) :=
  if A_total area ≤ 0 then .error .invalidInput
  else if ∃ j, n_j m j = 0 then .error .zeroSampleColumn
  else .ok (result m area z)

end Olofsson

/-! ## sample_size.py -/

namespace SampleSize

/-- Python's `round`: round half to even (banker's rounding), exact over
`ℚ`. -/
def pyRound (x : ℚ) : ℤ :=
  if x - ⌊x⌋ < 1/2 then ⌊x⌋
  else if 1/2 < x - ⌊x⌋ then ⌊x⌋ + 1
  else if 2 ∣ ⌊x⌋ then ⌊x⌋ else ⌊x⌋ + 1

/-- `calculate_sample_size(confidence_level, expected_accuracy,
margin_of_error, population_size)` from
`src/geoaccurate/domain/sample_size.py`: validates the three parameters,
computes Cochran's `n = z²·p·(1-p)/E²`, applies the finite-population
correction when `population_size > 0`, and ceiling-rounds. -/
noncomputable def calculate_sample_size (confidence_level expected_accuracy
    margin_of_error : ℝ) (population_size : ℕ) : Except GeoError ℤ :=
  if ¬(0 < expected_accuracy ∧ expected_accuracy < 1) then .error .invalidParameter
  else if ¬(0 < margin_of_error ∧ margin_of_error < 1) then .error .invalidParameter
  else if ¬(0 < confidence_level ∧ confidence_level < 1) then .error .invalidParameter
  else
    match Confidence.z_score_for_confidence confidence_level with
    | .error e => .error e
    | .ok z =>
      let p := expected_accuracy
      let E := margin_of_error
      let n := z ^ 2 * p * (1 - p) / E ^ 2
      let n' := if 0 < population_size then n / (1 + n / (population_size : ℝ)) else n
      .ok ⌈n'⌉

/-- Warnings emitted by `allocate_proportional`, as structured values
(the source builds message strings with the same data). -/
inductive AllocWarning where
  | capped (label : ℤ) (available : ℕ) (minPerClass : ℕ)
  | bumped (labels : List ℤ) (minPerClass : ℕ)
  deriving DecidableEq, Repr

/-- Keys of an association list, deduplicated then sorted ascending
(model of `sorted(dict.keys())`). -/
def sortedKeys (counts : List (ℤ × ℕ)) : List ℤ :=
  ((counts.map Prod.fst).dedup).mergeSort (fun a b => a ≤ b)

/-- Dict lookup `class_pixel_counts[label]` (0 when absent; the source
only looks up present keys). -/
def countOf (counts : List (ℤ × ℕ)) (l : ℤ) : ℕ :=
  ((counts.find? (fun e => e.1 = l)).map Prod.snd).getD 0

/-- Initial proportional allocation
`max(1, round(total_n * pixel_count / total_pixels))`. -/
def initialAlloc (total_n : ℕ) (counts : List (ℤ × ℕ)) (l : ℤ) : ℤ :=
  max 1 (pyRound ((total_n : ℚ) * (countOf counts l : ℚ) /
    ((counts.map Prod.snd).sum : ℚ)))

/-- Allocation after the minimum-per-class enforcement loop. -/
def allocAfterMin (total_n : ℕ) (counts : List (ℤ × ℕ)) (minPC : ℕ)
    (l : ℤ) : ℤ :=
  if initialAlloc total_n counts l < minPC then
    if minPC ≤ countOf counts l then (minPC : ℤ) else (countOf counts l : ℤ)
  else initialAlloc total_n counts l

/-- Classes bumped up to the minimum (had enough pixels). -/
def bumpedClasses (total_n : ℕ) (counts : List (ℤ × ℕ)) (minPC : ℕ) : List ℤ :=
  (sortedKeys counts).filter
    (fun l => initialAlloc total_n counts l < minPC ∧ minPC ≤ countOf counts l)

/-- Classes capped at their pixel count (not enough pixels for the
minimum); each produces a warning. -/
def cappedClasses (total_n : ℕ) (counts : List (ℤ × ℕ)) (minPC : ℕ) : List ℤ :=
  (sortedKeys counts).filter
    (fun l => initialAlloc total_n counts l < minPC ∧ countOf counts l < minPC)

/-- Classes eligible for the redistribution step: not bumped and with
allocation strictly above the minimum. -/
def adjustable (total_n : ℕ) (counts : List (ℤ × ℕ)) (minPC : ℕ) : List ℤ :=
  (sortedKeys counts).filter
    (fun l => l ∉ bumpedClasses total_n counts minPC ∧
      (minPC : ℤ) < allocAfterMin total_n counts minPC l)

/-- Final per-label allocation after the proportional redistribution of
the excess/deficit (`diff`) across adjustable classes, floored at 1. -/
def finalAlloc (total_n : ℕ) (counts : List (ℤ × ℕ)) (minPC : ℕ) (l : ℤ) : ℤ :=
  let labels := sortedKeys counts
  let alloc1 := allocAfterMin total_n counts minPC
  let currentTotal := (labels.map alloc1).sum
  let adj := adjustable total_n counts minPC
  let diff : ℤ := (total_n : ℤ) - currentTotal
  let adjTotal := (adj.map alloc1).sum
  if currentTotal ≠ total_n ∧ 0 < currentTotal ∧ adj ≠ [] ∧ diff ≠ 0 ∧
      0 < adjTotal ∧ l ∈ adj then
    max 1 (alloc1 l + pyRound ((diff : ℚ) * ((alloc1 l : ℚ) / (adjTotal : ℚ))))
  else alloc1 l

/-- `allocate_proportional(total_n, class_pixel_counts, min_per_class)`
from `src/geoaccurate/domain/sample_size.py`.  The returned dict is
modelled as an association list over the sorted labels; warnings are the
per-class capping warnings (in label order) followed by the single
bumped-classes warning when any class was bumped. -/
def allocate_proportional (total_n : ℕ) (counts : List (ℤ × ℕ))
    (minPC : ℕ) : Except GeoError (List (ℤ × ℤ) × List AllocWarning) :=
  if counts = [] then .error .emptyInput
  else if (counts.map Prod.snd).sum = 0 then .error .emptyInput
  else
    let labels := sortedKeys counts
    let alloc := labels.map (fun l => (l, finalAlloc total_n counts minPC l))
    let warns :=
      (cappedClasses total_n counts minPC).map
        (fun l => AllocWarning.capped l (countOf counts l) minPC) ++
      (if bumpedClasses total_n counts minPC ≠ [] then
        [AllocWarning.bumped (bumpedClasses total_n counts minPC) minPC]
      else [])
    .ok (alloc, warns)

end SampleSize

/-! ## sampling.py

Coordinates are pairs of reals.  The seeded NumPy shuffle
(`rng.permutation` indexing) is modelled as an oracle parameter
`shuffle : ℕ → List Pt → List Pt` applied at the class's position in the
processing order (the RNG state advances once per shuffled class);
theorems quantify over all shuffle oracles and therefore cover every
seed.  The scipy `cKDTree.query` nearest-neighbor test and the
brute-force fallback are, per the source, numerically identical
accept/reject decisions; both are the test
`∃ prev ∈ existing, dist < min_distance`, which is how the cross-class
check is modelled.  The `progress_callback` has no effect on the return
value and is omitted. -/

namespace Sampling

/-- A coordinate pair `(x, y)`. -/
abbrev Pt := ℝ × ℝ

/-- Euclidean distance `sqrt((x1-x2)**2 + (y1-y2)**2)` as in
`_select_with_distance`. -/
noncomputable def ptDist (a b : Pt) : ℝ :=
  Real.sqrt ((a.1 - b.1) ^ 2 + (a.2 - b.2) ^ 2)

/-- `SamplePoint` from `models.py`. -/
structure SamplePoint where
  id : ℕ
  x : ℝ
  y : ℝ
  stratum_class : ℤ

/-- Warnings emitted by `generate_stratified_random`, as structured
values (the source builds message strings with the same data):
`noCandidatesFound` = class absent from `candidates_per_class`;
`emptyCandidates` = class present with an empty pool; `shortfall` =
fewer points selected than requested. -/
inductive SamplingWarning where
  | noCandidatesFound (cls : ℤ) (requested : ℕ)
  | emptyCandidates (cls : ℤ) (requested : ℕ)
  | shortfall (cls : ℤ) (generated requested : ℕ)

/-- The class a warning is about. -/
def SamplingWarning.cls : SamplingWarning → ℤ
  | .noCandidatesFound c _ => c
  | .emptyCandidates c _ => c
  | .shortfall c _ _ => c

/-- `_select_with_distance(candidates, n_desired, min_distance,
existing_points)`: greedy selection in candidate order; a candidate is
accepted when it is at distance ≥ `min_distance` from every previously
selected point of this class and from every globally selected point. -/
noncomputable def selectLoop (d : ℝ) (existing : List Pt) (nDesired : ℕ) :
    List Pt → List Pt → List Pt
  | [], selected => selected
  | c :: rest, selected =>
    if nDesired ≤ selected.length then selected
    else if ∃ prev ∈ selected, ptDist c prev < d then
      selectLoop d existing nDesired rest selected
    else if ∃ prev ∈ existing, ptDist c prev < d then
      selectLoop d existing nDesired rest selected
    else
      selectLoop d existing nDesired rest (selected ++ [c])

/-- Builds the `SamplePoint`s for one class batch: sequential ids
starting at `pid`, in acceptance order. -/
def mkPoints (cls : ℤ) : ℕ → List Pt → List SamplePoint
  | _, [] => []
  | pid, xy :: rest => ⟨pid, xy.1, xy.2, cls⟩ :: mkPoints cls (pid + 1) rest

/-- The per-class loop body of `generate_stratified_random`, recursing
over the sorted class labels and threading `(cls_idx, all_selected
coords, next point id)`. -/
noncomputable def generateLoop (cand : ℤ → Option (List Pt)) (npc : ℤ → ℕ)
    (d : ℝ) (shuffle : ℕ → List Pt → List Pt) :
    List ℤ → ℕ → List Pt → ℕ → List SamplePoint × List SamplingWarning
  | [], _, _, _ => ([], [])
  | c :: rest, idx, existing, pid =>
    match cand c with
    | none =>
      let r := generateLoop cand npc d shuffle rest (idx + 1) existing pid
      (r.1, .noCandidatesFound c (npc c) :: r.2)
    | some coords =>
      if coords = [] then
        let r := generateLoop cand npc d shuffle rest (idx + 1) existing pid
        (r.1, .emptyCandidates c (npc c) :: r.2)
      else
        let shuffled := shuffle idx coords
        let selected :=
          if 0 < d then selectLoop d existing (npc c) shuffled []
          else shuffled.take (npc c)
        let ws : List SamplingWarning :=
          if selected.length < npc c then [.shortfall c selected.length (npc c)]
          else []
        let r := generateLoop cand npc d shuffle rest (idx + 1)
          (existing ++ selected) (pid + selected.length)
        (mkPoints c pid selected ++ r.1, ws ++ r.2)

/-- Keys of the `n_per_class` dict, deduplicated then sorted ascending
(model of `sorted(n_per_class.keys())`). -/
def sortedKeys (npc : List (ℤ × ℕ)) : List ℤ :=
  ((npc.map Prod.fst).dedup).mergeSort (fun a b => a ≤ b)

/-- Dict lookup `n_per_class[class_val]` (0 when absent; the source only
looks up present keys). -/
def npcVal (npc : List (ℤ × ℕ)) (l : ℤ) : ℕ :=
  ((npc.find? (fun e => e.1 = l)).map Prod.snd).getD 0

/-- `generate_stratified_random(candidates_per_class, n_per_class,
min_distance, seed)` from `src/geoaccurate/domain/sampling.py`: iterates
the sorted keys of `n_per_class`, shuffles each class's candidate pool,
selects greedily (with the distance constraint when
`min_distance > 0`), assigns sequential ids starting at 1, and collects
shortfall warnings. -/
noncomputable def generate_stratified_random
    (candidates_per_class : ℤ → Option (List Pt)) (npc : List (ℤ × ℕ))
    (min_distance : ℝ) (shuffle : ℕ → List Pt → List Pt) :
    List SamplePoint × List SamplingWarning :=
  generateLoop candidates_per_class (npcVal npc) min_distance shuffle
    (sortedKeys npc) 0 [] 1

end Sampling

/-! ## Theorems — confidence.py -/

namespace Confidence

/-- Unfolding of `wilson_ci` for `n ≠ 0`. -/
theorem wilson_ci_of_ne (p z : ℝ) (n : ℕ) (hn : n ≠ 0) :
    wilson_ci p n z =
      (max 0 ((p + z * z / (2 * n)) / (1 + z * z / n) -
          z * Real.sqrt (p * (1 - p) / n + z * z / (4 * n * n)) / (1 + z * z / n)),
       min 1 ((p + z * z / (2 * n)) / (1 + z * z / n) +
          z * Real.sqrt (p * (1 - p) / n + z * z / (4 * n * n)) / (1 + z * z / n))) := by
  simp only [wilson_ci, if_neg hn]

/-- Core inequality behind the Wilson bracket: the half-width dominates
the (signed) distance from `p` to the interval center, numerator form. -/
theorem wilson_key (p z c : ℝ) (n : ℕ) (hn : 0 < n) (hp0 : 0 ≤ p) (hp1 : p ≤ 1)
    (hz : 0 ≤ z) (hc : c = 1/2 - p ∨ c = p - 1/2) :
    z * z * c / (n : ℝ) ≤ z * Real.sqrt (p * (1 - p) / n + z * z / (4 * n * n)) := by
  have hnpos : (0:ℝ) < n := by exact_mod_cast hn
  have hpq : 0 ≤ p * (1 - p) := mul_nonneg hp0 (by linarith)
  have hX0 : 0 ≤ p * (1 - p) / n + z * z / (4 * n * n) :=
    add_nonneg (div_nonneg hpq hnpos.le) (by positivity)
  set s := Real.sqrt (p * (1 - p) / n + z * z / (4 * n * n)) with hs
  have hs0 : 0 ≤ s := Real.sqrt_nonneg _
  have hs2 : s ^ 2 = p * (1 - p) / n + z * z / (4 * n * n) := Real.sq_sqrt hX0
  have hs2' : s ^ 2 * (4 * n * n) = p * (1 - p) * (4 * n) + z * z := by
    rw [hs2]; field_simp; ring
  rw [div_le_iff₀ hnpos]
  rcases hc with rfl | rfl
  · nlinarith [mul_nonneg (mul_nonneg hz hs0) hnpos.le,
      sq_nonneg (2 * (z * s * n) - z * z * (1 - 2 * p)),
      mul_nonneg (mul_nonneg (mul_nonneg hz hz) hpq)
        (by positivity : (0:ℝ) ≤ (n:ℝ) + z * z),
      sq_nonneg (z * s * n)]
  · nlinarith [mul_nonneg (mul_nonneg hz hs0) hnpos.le,
      sq_nonneg (2 * (z * s * n) - z * z * (2 * p - 1)),
      mul_nonneg (mul_nonneg (mul_nonneg hz hz) hpq)
        (by positivity : (0:ℝ) ≤ (n:ℝ) + z * z),
      sq_nonneg (z * s * n)]

/-- For `n > 0`, `0 ≤ p ≤ 1`, `z ≥ 0`: the Wilson interval is contained
in `[0,1]` and brackets `p`. -/
theorem wilson_ci_bracket (p z : ℝ) (n : ℕ) (hn : 0 < n) (hp0 : 0 ≤ p) (hp1 : p ≤ 1)
    (hz : 0 ≤ z) :
    0 ≤ (wilson_ci p n z).1 ∧ (wilson_ci p n z).1 ≤ p ∧
      p ≤ (wilson_ci p n z).2 ∧ (wilson_ci p n z).2 ≤ 1 := by
  have hnpos : (0:ℝ) < n := by exact_mod_cast hn
  rw [wilson_ci_of_ne p z n hn.ne']
  set s := Real.sqrt (p * (1 - p) / n + z * z / (4 * n * n)) with hs
  have hD : (0:ℝ) < 1 + z * z / n := by positivity
  have hcp : (p + z * z / (2 * n)) / (1 + z * z / n) - p =
      (z * z * (1/2 - p) / n) / (1 + z * z / n) := by
    field_simp; ring
  have hpc : p - (p + z * z / (2 * n)) / (1 + z * z / n) =
      (z * z * (p - 1/2) / n) / (1 + z * z / n) := by
    field_simp; ring
  have key1 : z * z * (1/2 - p) / (n:ℝ) ≤ z * s :=
    wilson_key p z _ n hn hp0 hp1 hz (Or.inl rfl)
  have key2 : z * z * (p - 1/2) / (n:ℝ) ≤ z * s :=
    wilson_key p z _ n hn hp0 hp1 hz (Or.inr rfl)
  have key1' := (div_le_div_iff_of_pos_right hD).mpr key1
  have key2' := (div_le_div_iff_of_pos_right hD).mpr key2
  refine ⟨le_max_left _ _, max_le hp0 (by linarith),
    le_min hp1 (by linarith), min_le_left _ _⟩

/-- The Wilson interval is always ordered: lower ≤ upper. -/
theorem wilson_ci_le (p z : ℝ) (n : ℕ) (hp0 : 0 ≤ p) (hp1 : p ≤ 1) (hz : 0 ≤ z) :
    (wilson_ci p n z).1 ≤ (wilson_ci p n z).2 := by
  rcases Nat.eq_zero_or_pos n with h0 | hpos
  · subst h0; simp [wilson_ci]
  · obtain ⟨h1, h2, h3, h4⟩ := wilson_ci_bracket p z n hpos hp0 hp1 hz
    linarith

/-- `kappa_ci` always returns a pair with lower ≤ upper when `z ≥ 0`
(its variance argument is a square root, hence nonnegative); no clamping
to `[0,1]` is performed. -/
theorem kappa_ci_le (kappa p_o p_e : ℝ) (n : ℕ) (z : ℝ) (hz : 0 ≤ z) :
    (kappa_ci kappa p_o p_e n z).1 ≤ (kappa_ci kappa p_o p_e n z).2 := by
  unfold kappa_ci
  split_ifs with h
  · exact le_refl _
  · have : 0 ≤ z * Real.sqrt (p_o * (1 - p_o) / (n * (1 - p_e) ^ 2)) :=
      mul_nonneg hz (Real.sqrt_nonneg _)
    dsimp only
    linarith

end Confidence

/-- C4: for every proportion `0 ≤ p ≤ 1` and every `z ≥ 0`,
`wilson_ci(p, n, z)` returns `(0, 1)` when `n = 0`, and otherwise
returns `(lower, upper)` with `0 ≤ lower ≤ p ≤ upper ≤ 1` (both bounds
are well-defined real numbers, never NaN). -/
theorem claim_C4 (p z : ℝ) (n : ℕ) (hp0 : 0 ≤ p) (hp1 : p ≤ 1) (hz : 0 ≤ z) :
    (n = 0 → Confidence.wilson_ci p n z = (0, 1)) ∧
    (0 < n →
      0 ≤ (Confidence.wilson_ci p n z).1 ∧
      (Confidence.wilson_ci p n z).1 ≤ p ∧
      p ≤ (Confidence.wilson_ci p n z).2 ∧
      (Confidence.wilson_ci p n z).2 ≤ 1) := by
  constructor
  · intro h0; subst h0; simp [Confidence.wilson_ci]
  · intro hpos; exact Confidence.wilson_ci_bracket p z n hpos hp0 hp1 hz

/-- Witness for C4 at `p = 1/2`, `n = 4`, `z = 1`. -/
theorem claim_C4_witness :
    (0 ≤ (1/2 : ℝ) ∧ (1/2 : ℝ) ≤ 1 ∧ (0:ℝ) ≤ 1) ∧
    ((4 = 0 → Confidence.wilson_ci (1/2) 4 1 = (0, 1)) ∧
     (0 < 4 →
       0 ≤ (Confidence.wilson_ci (1/2) 4 1).1 ∧
       (Confidence.wilson_ci (1/2) 4 1).1 ≤ 1/2 ∧
       (1/2 : ℝ) ≤ (Confidence.wilson_ci (1/2) 4 1).2 ∧
       (Confidence.wilson_ci (1/2) 4 1).2 ≤ 1)) :=
  ⟨by norm_num, claim_C4 (1/2) 1 4 (by norm_num) (by norm_num) (by norm_num)⟩

/-! ## Theorems — pontius.py -/

namespace Pontius

/-- Pointwise identity: `|c - r| + 2·min(c - d, r - d) = c + r - 2·d`. -/
theorem abs_add_two_min (c r d : ℚ) :
    |c - r| + 2 * min (c - d) (r - d) = c + r - 2 * d := by
  rcases le_total c r with h | h
  · rw [abs_of_nonpos (by linarith), min_eq_left (by linarith)]; ring
  · rw [abs_of_nonneg (by linarith), min_eq_right (by linarith)]; ring

/-- Row proportions sum to 1 when the matrix is nonempty. -/
theorem sum_rowProp {k : ℕ} (m : Fin k → Fin k → ℕ) (h : Nval m ≠ 0) :
    ∑ i, rowProp m i = 1 := by
  unfold rowProp
  rw [← Finset.sum_div]
  exact div_self h

/-- Column proportions sum to 1 when the matrix is nonempty. -/
theorem sum_colProp {k : ℕ} (m : Fin k → Fin k → ℕ) (h : Nval m ≠ 0) :
    ∑ j, colProp m j = 1 := by
  unfold colProp
  rw [← Finset.sum_div]
  rw [show ∑ j : Fin k, ∑ i, (m i j : ℚ) = Nval m from Finset.sum_comm]
  exact div_self h

/-- The Pontius & Millones identity, exact over `ℚ`:
`QD + AD = 1 - OA` for every nonempty matrix. -/
theorem qd_add_ad {k : ℕ} (m : Fin k → Fin k → ℕ) (h : Nval m ≠ 0) :
    QD m + AD m = 1 - OA m := by
  unfold QD AD OA
  rw [div_add_div_same, ← Finset.sum_add_distrib]
  have hpt : ∀ i : Fin k,
      |colProp m i - rowProp m i| +
        2 * min (colProp m i - diagProp m i) (rowProp m i - diagProp m i) =
      colProp m i + rowProp m i - 2 * diagProp m i := fun i =>
    abs_add_two_min _ _ _
  rw [Finset.sum_congr rfl (fun i _ => hpt i)]
  rw [Finset.sum_sub_distrib, Finset.sum_add_distrib, sum_colProp m h,
    sum_rowProp m h, ← Finset.mul_sum]
  ring

end Pontius

/-- C1: for every `k × k` confusion matrix of counts with total sum
`N > 0`, `Pontius.compute` returns `(QD, AD)` with
`QD = Σ|col_prop − row_prop|/2`, `AD = Σ 2·min(commission, omission)/2`,
and `QD + AD = 1 − OA` holds exactly (hence within the 1e-9 tolerance);
consequently the `InvariantViolation` branch is never taken. -/
theorem claim_C1 {k : ℕ} (m : Fin k → Fin k → ℕ) (h : 0 < Pontius.Nval m) :
    Pontius.compute m = .ok (Pontius.QD m, Pontius.AD m) ∧
      Pontius.QD m + Pontius.AD m = 1 - Pontius.OA m := by
  have hne : Pontius.Nval m ≠ 0 := ne_of_gt h
  have hid := Pontius.qd_add_ad m hne
  refine ⟨?_, hid⟩
  unfold Pontius.compute
  rw [if_neg hne, if_neg]
  rw [hid]
  norm_num

/-- Witness for C1 at the 2×2 matrix `[[40, 10], [10, 40]]`. -/
theorem claim_C1_witness :
    0 < Pontius.Nval ![![40, 10], ![10, 40]] ∧
    (Pontius.compute ![![40, 10], ![10, 40]] =
       .ok (Pontius.QD ![![40, 10], ![10, 40]], Pontius.AD ![![40, 10], ![10, 40]]) ∧
     Pontius.QD ![![40, 10], ![10, 40]] + Pontius.AD ![![40, 10], ![10, 40]] =
       1 - Pontius.OA ![![40, 10], ![10, 40]]) := by
  have hN : (0:ℚ) < Pontius.Nval ![![40, 10], ![10, 40]] := by
    norm_num [Pontius.Nval, Fin.sum_univ_two]
  exact ⟨hN, claim_C1 _ hN⟩

/-! ## Theorems — confusion_matrix.py (normalize) -/

/-- C6: for every `k × k` matrix of non-negative entries and either
axis, `normalize_confusion_matrix` returns a `k × k` array where every
row (axis 1) or column (axis 0) with nonzero input sum sums to exactly
100, and every zero-sum row/column is all zeros; every entry is a
well-defined rational (no NaN/Inf can arise). -/
theorem claim_C6 {k : ℕ} (m : Fin k → Fin k → ℚ) (hm : ∀ i j, 0 ≤ m i j) :
    (∀ i : Fin k,
      ((∑ j, m i j) ≠ 0 →
        ∑ j, ConfusionMatrix.normalize_confusion_matrix m 1 i j = 100) ∧
      ((∑ j, m i j) = 0 →
        ∀ j, ConfusionMatrix.normalize_confusion_matrix m 1 i j = 0)) ∧
    (∀ j : Fin k,
      ((∑ i, m i j) ≠ 0 →
        ∑ i, ConfusionMatrix.normalize_confusion_matrix m 0 i j = 100) ∧
      ((∑ i, m i j) = 0 →
        ∀ i, ConfusionMatrix.normalize_confusion_matrix m 0 i j = 0)) := by
  constructor
  · intro i
    constructor
    · intro h
      have he : ∀ j : Fin k, ConfusionMatrix.normalize_confusion_matrix m 1 i j =
          m i j / (∑ j2, m i j2) * 100 := by
        intro j
        simp [ConfusionMatrix.normalize_confusion_matrix, h]
      rw [Finset.sum_congr rfl (fun j _ => he j), ← Finset.sum_mul,
        ← Finset.sum_div, div_self h]
      norm_num
    · intro h j
      simp [ConfusionMatrix.normalize_confusion_matrix, h]
  · intro j
    have hax : ((0 : Fin 2) = 1) = False := by decide
    constructor
    · intro h
      have he : ∀ i : Fin k, ConfusionMatrix.normalize_confusion_matrix m 0 i j =
          m i j / (∑ i2, m i2 j) * 100 := by
        intro i
        simp [ConfusionMatrix.normalize_confusion_matrix, hax, h]
      rw [Finset.sum_congr rfl (fun i _ => he i), ← Finset.sum_mul,
        ← Finset.sum_div, div_self h]
      norm_num
    · intro h i
      simp [ConfusionMatrix.normalize_confusion_matrix, hax, h]

/-- Witness for C6 at the matrix `[[1, 2], [0, 0]]` (one nonzero row,
one zero row). -/
theorem claim_C6_witness :
    (∀ i j : Fin 2, 0 ≤ (![![1, 2], ![0, 0]] : Fin 2 → Fin 2 → ℚ) i j) ∧
    ((∀ i : Fin 2,
      ((∑ j, (![![1, 2], ![0, 0]] : Fin 2 → Fin 2 → ℚ) i j) ≠ 0 →
        ∑ j, ConfusionMatrix.normalize_confusion_matrix
          (![![1, 2], ![0, 0]] : Fin 2 → Fin 2 → ℚ) 1 i j = 100) ∧
      ((∑ j, (![![1, 2], ![0, 0]] : Fin 2 → Fin 2 → ℚ) i j) = 0 →
        ∀ j, ConfusionMatrix.normalize_confusion_matrix
          (![![1, 2], ![0, 0]] : Fin 2 → Fin 2 → ℚ) 1 i j = 0)) ∧
    (∀ j : Fin 2,
      ((∑ i, (![![1, 2], ![0, 0]] : Fin 2 → Fin 2 → ℚ) i j) ≠ 0 →
        ∑ i, ConfusionMatrix.normalize_confusion_matrix
          (![![1, 2], ![0, 0]] : Fin 2 → Fin 2 → ℚ) 0 i j = 100) ∧
      ((∑ i, (![![1, 2], ![0, 0]] : Fin 2 → Fin 2 → ℚ) i j) = 0 →
        ∀ i, ConfusionMatrix.normalize_confusion_matrix
          (![![1, 2], ![0, 0]] : Fin 2 → Fin 2 → ℚ) 0 i j = 0))) := by
  have hm : ∀ i j : Fin 2, 0 ≤ (![![1, 2], ![0, 0]] : Fin 2 → Fin 2 → ℚ) i j := by
    decide
  exact ⟨hm, claim_C6 _ hm⟩

/-! ## Theorems — kappa.py -/

/-- C7: `Kappa.compute` raises `EmptyInput` exactly when `N = 0`, and
for every matrix with `N > 0` and `|1 − p_e| < 1e-15` (perfect marginal
prediction) it returns `kappa = 0` with confidence interval `(0, 0)`
instead of raising. -/
theorem claim_C7 {k : ℕ} (m : Fin k → Fin k → ℕ) :
    (Kappa.compute m = .error .emptyInput ↔ Kappa.Nval m = 0) ∧
    (0 < Kappa.Nval m → |1 - Kappa.p_e m| < 1e-15 →
      Kappa.compute m = .ok (0, (0, 0))) := by
  constructor
  · constructor
    · intro h
      by_contra hN
      revert h
      unfold Kappa.compute
      rw [if_neg hN]
      split_ifs <;> simp
    · intro h
      unfold Kappa.compute
      rw [if_pos h]
  · intro hpos habs
    unfold Kappa.compute
    rw [if_neg (Nat.pos_iff_ne_zero.mp hpos), if_pos habs]

/-- Witness for C7 at the one-class matrix `[[100]]`. -/
theorem claim_C7_witness :
    0 < Kappa.Nval ![![100]] ∧ |1 - Kappa.p_e ![![100]]| < 1e-15 ∧
      Kappa.compute ![![100]] = .ok (0, (0, 0)) := by
  have h1 : 0 < Kappa.Nval ![![100]] := by decide
  have hpe : Kappa.p_e ![![100]] = 1 := by
    simp [Kappa.p_e, Kappa.Nval, Fin.sum_univ_one]
  have h2 : |1 - Kappa.p_e ![![100]]| < 1e-15 := by
    rw [hpe]
    norm_num
  exact ⟨h1, h2, (claim_C7 ![![100]]).2 h1 h2⟩

/-! ## Theorems — olofsson.py -/

namespace Olofsson

/-- Column sums of the estimated-proportion grid collapse to the class
weight: `Σ_i p_hat[i,j] = W[j]` whenever column `j` has samples. -/
theorem sum_p_hat_col {k : ℕ} (m : Fin k → Fin k → ℕ) (area : Fin k → ℝ)
    (j : Fin k) (hj : n_j m j ≠ 0) :
    ∑ i, p_hat m area i j = W area j := by
  unfold p_hat
  rw [← Finset.mul_sum, ← Finset.sum_div]
  rw [show ∑ i, (m i j : ℝ) = n_j m j from rfl, div_self hj, mul_one]

/-- Weights sum to exactly 1 when the total area is nonzero. -/
theorem sum_W {k : ℕ} (area : Fin k → ℝ) (hA : A_total area ≠ 0) :
    ∑ j, W area j = 1 := by
  unfold W
  rw [← Finset.sum_div]
  exact div_self hA

end Olofsson

/-- C2: under Olofsson's preconditions (total mapped area > 0, every
column total `n_j > 0`, `z ≥ 0`), `Olofsson.compute` succeeds and the
result's weights sum to exactly 1, its estimated areas sum to exactly
the total mapped area (both identities are exact over `ℝ`, hence within
the 1e-10 and 0.1% tolerances), and every estimated-area confidence
interval brackets its point estimate. -/
theorem claim_C2 {k : ℕ} (m : Fin k → Fin k → ℕ) (area : Fin k → ℝ) (z : ℝ)
    (hA : 0 < Olofsson.A_total area) (hn : ∀ j, 0 < Olofsson.n_j m j)
    (hz : 0 ≤ z) :
    Olofsson.compute m area z = .ok (Olofsson.result m area z) ∧
    (∑ j, (Olofsson.result m area z).weight_per_class j) = 1 ∧
    (∑ i, (Olofsson.result m area z).estimated_area_ha i) =
      Olofsson.A_total area ∧
    (∀ i, ((Olofsson.result m area z).estimated_area_ci_ha i).1 ≤
        (Olofsson.result m area z).estimated_area_ha i ∧
      (Olofsson.result m area z).estimated_area_ha i ≤
        ((Olofsson.result m area z).estimated_area_ci_ha i).2) := by
  refine ⟨?_, ?_, ?_, ?_⟩
  · unfold Olofsson.compute
    rw [if_neg (not_le.mpr hA), if_neg]
    push_neg
    exact fun j => (hn j).ne'
  · exact Olofsson.sum_W area hA.ne'
  · show (∑ i, Olofsson.A_hat m area i) = Olofsson.A_total area
    unfold Olofsson.A_hat
    rw [← Finset.mul_sum, Finset.sum_comm]
    rw [Finset.sum_congr rfl
      (fun j _ => Olofsson.sum_p_hat_col m area j (hn j).ne')]
    rw [Olofsson.sum_W area hA.ne', mul_one]
  · intro i
    show (Olofsson.areaCI m area z i).1 ≤ Olofsson.A_hat m area i ∧
      Olofsson.A_hat m area i ≤ (Olofsson.areaCI m area z i).2
    unfold Olofsson.areaCI
    have hse : 0 ≤ z * (Olofsson.A_total area *
        Real.sqrt (Olofsson.areaVar m area i)) :=
      mul_nonneg hz (mul_nonneg hA.le (Real.sqrt_nonneg _))
    constructor <;> dsimp only <;> linarith

/-- Witness for C2 at the 2×2 identity-like matrix `[[1, 0], [0, 1]]`
with mapped areas `(100, 50)` and `z = 1.96`. -/
theorem claim_C2_witness :
    (0 < Olofsson.A_total (![100, 50] : Fin 2 → ℝ) ∧
     (∀ j, 0 < Olofsson.n_j (![![1, 0], ![0, 1]] : Fin 2 → Fin 2 → ℕ) j) ∧
     (0:ℝ) ≤ 1.96) ∧
    Olofsson.compute (![![1, 0], ![0, 1]] : Fin 2 → Fin 2 → ℕ)
        (![100, 50] : Fin 2 → ℝ) 1.96 =
      .ok (Olofsson.result ![![1, 0], ![0, 1]] ![100, 50] 1.96) := by
  have hA : 0 < Olofsson.A_total (![100, 50] : Fin 2 → ℝ) := by
    norm_num [Olofsson.A_total, Fin.sum_univ_two]
  have hn : ∀ j, 0 < Olofsson.n_j (![![1, 0], ![0, 1]] : Fin 2 → Fin 2 → ℕ) j := by
    intro j
    fin_cases j <;> norm_num [Olofsson.n_j, Fin.sum_univ_two]
  have hz : (0:ℝ) ≤ 1.96 := by norm_num
  exact ⟨⟨hA, hn, hz⟩, (claim_C2 _ _ _ hA hn hz).1⟩

/-! ## Theorems — claim C3 (CI bounds) -/

/-- C3 counterexample: for the matrix `[[1, 1], [1, 1]]` with mapped
areas `(1, 1)` and `z = 1.96`, `Olofsson.compute` succeeds and the
estimated-area CI of class 0 has a strictly negative lower bound — the
estimated-area CIs are NOT intersected with `[0, ∞)`. -/
theorem claim_C3_counterexample :
    Olofsson.compute (![![1, 1], ![1, 1]] : Fin 2 → Fin 2 → ℕ)
        (![1, 1] : Fin 2 → ℝ) 1.96 =
      .ok (Olofsson.result ![![1, 1], ![1, 1]] ![1, 1] 1.96) ∧
    ((Olofsson.result (![![1, 1], ![1, 1]] : Fin 2 → Fin 2 → ℕ)
        (![1, 1] : Fin 2 → ℝ) 1.96).estimated_area_ci_ha 0).1 < 0 := by
  have hAt : Olofsson.A_total (![1, 1] : Fin 2 → ℝ) = 2 := by
    norm_num [Olofsson.A_total, Fin.sum_univ_two]
  have hnj : ∀ j, Olofsson.n_j (![![1, 1], ![1, 1]] : Fin 2 → Fin 2 → ℕ) j = 2 := by
    intro j
    fin_cases j <;> norm_num [Olofsson.n_j, Fin.sum_univ_two]
  constructor
  · unfold Olofsson.compute
    rw [if_neg (by rw [hAt]; norm_num), if_neg]
    push_neg
    intro j
    rw [hnj j]
    norm_num
  · show (Olofsson.areaCI ![![1, 1], ![1, 1]] ![1, 1] 1.96 0).1 < 0
    have hW : ∀ j, Olofsson.W (![1, 1] : Fin 2 → ℝ) j = 1/2 := by
      intro j
      unfold Olofsson.W
      rw [hAt]
      fin_cases j <;> norm_num
    have hv : Olofsson.areaVar (![![1, 1], ![1, 1]] : Fin 2 → Fin 2 → ℕ)
        (![1, 1] : Fin 2 → ℝ) 0 = 1/8 := by
      unfold Olofsson.areaVar
      rw [Fin.sum_univ_two, hnj 0, hnj 1, hW 0, hW 1]
      norm_num
    have hAh : Olofsson.A_hat (![![1, 1], ![1, 1]] : Fin 2 → Fin 2 → ℕ)
        (![1, 1] : Fin 2 → ℝ) 0 = 1 := by
      unfold Olofsson.A_hat Olofsson.p_hat
      rw [hAt, Fin.sum_univ_two, hnj 0, hnj 1, hW 0, hW 1]
      norm_num
    unfold Olofsson.areaCI
    rw [hv, hAh, hAt]
    have hs2 : Real.sqrt (1/8) ^ 2 = 1/8 := Real.sq_sqrt (by norm_num)
    have hs0 : 0 ≤ Real.sqrt (1/8) := Real.sqrt_nonneg _
    dsimp only
    nlinarith [hs2, hs0]

/-- C3 (amended): every CI produced by the core is ordered
(lower ≤ upper), and Wilson CIs are clamped to `[0, 1]`; but the
Olofsson estimated-area and weighted-OA CIs and the Kappa CI are plain
`center ± z·se` intervals that are NOT intersected with the domain's
logical bounds. -/
theorem claim_C3 :
    (∀ (p z : ℝ) (n : ℕ), 0 ≤ p → p ≤ 1 → 0 ≤ z →
      0 ≤ (Confidence.wilson_ci p n z).1 ∧
      (Confidence.wilson_ci p n z).1 ≤ (Confidence.wilson_ci p n z).2 ∧
      (Confidence.wilson_ci p n z).2 ≤ 1) ∧
    (∀ (kappa p_o p_e : ℝ) (n : ℕ) (z : ℝ), 0 ≤ z →
      (Confidence.kappa_ci kappa p_o p_e n z).1 ≤
        (Confidence.kappa_ci kappa p_o p_e n z).2) ∧
    (∀ (k : ℕ) (m : Fin k → Fin k → ℕ) (area : Fin k → ℝ) (z : ℝ),
      0 ≤ Olofsson.A_total area → 0 ≤ z →
      (∀ i, ((Olofsson.result m area z).estimated_area_ci_ha i).1 ≤
        ((Olofsson.result m area z).estimated_area_ci_ha i).2) ∧
      (Olofsson.result m area z).overall_accuracy_weighted_ci.1 ≤
        (Olofsson.result m area z).overall_accuracy_weighted_ci.2) := by
  refine ⟨?_, ?_, ?_⟩
  · intro p z n hp0 hp1 hz
    rcases Nat.eq_zero_or_pos n with h0 | hpos
    · subst h0
      simp [Confidence.wilson_ci]
    · obtain ⟨h1, h2, h3, h4⟩ := Confidence.wilson_ci_bracket p z n hpos hp0 hp1 hz
      exact ⟨h1, by linarith, h4⟩
  · intro kappa p_o p_e n z hz
    exact Confidence.kappa_ci_le kappa p_o p_e n z hz
  · intro k m area z hA hz
    constructor
    · intro i
      show (Olofsson.areaCI m area z i).1 ≤ (Olofsson.areaCI m area z i).2
      unfold Olofsson.areaCI
      have hse : 0 ≤ z * (Olofsson.A_total area *
          Real.sqrt (Olofsson.areaVar m area i)) :=
        mul_nonneg hz (mul_nonneg hA (Real.sqrt_nonneg _))
      dsimp only
      linarith
    · show (Olofsson.oaCI m area z).1 ≤ (Olofsson.oaCI m area z).2
      unfold Olofsson.oaCI
      have hse : 0 ≤ z * Real.sqrt (Olofsson.oaVar m area) :=
        mul_nonneg hz (Real.sqrt_nonneg _)
      dsimp only
      linarith

/-- Witness for C3 (amended) at concrete inputs for each conjunct. -/
theorem claim_C3_witness :
    ((0 ≤ (1/2 : ℝ) ∧ (1/2 : ℝ) ≤ 1 ∧ (0:ℝ) ≤ 1) ∧
      0 ≤ (Confidence.wilson_ci (1/2) 4 1).1 ∧
      (Confidence.wilson_ci (1/2) 4 1).1 ≤ (Confidence.wilson_ci (1/2) 4 1).2 ∧
      (Confidence.wilson_ci (1/2) 4 1).2 ≤ 1) ∧
    ((Confidence.kappa_ci (3/5) (4/5) (1/2) 100 1).1 ≤
      (Confidence.kappa_ci (3/5) (4/5) (1/2) 100 1).2) ∧
    ((0 ≤ Olofsson.A_total (![1, 1] : Fin 2 → ℝ)) ∧
      (∀ i, ((Olofsson.result (![![1, 1], ![1, 1]] : Fin 2 → Fin 2 → ℕ)
          (![1, 1] : Fin 2 → ℝ) 1).estimated_area_ci_ha i).1 ≤
        ((Olofsson.result (![![1, 1], ![1, 1]] : Fin 2 → Fin 2 → ℕ)
          (![1, 1] : Fin 2 → ℝ) 1).estimated_area_ci_ha i).2)) := by
  have hA : 0 ≤ Olofsson.A_total (![1, 1] : Fin 2 → ℝ) := by
    norm_num [Olofsson.A_total, Fin.sum_univ_two]
  refine ⟨⟨by norm_num, ?_⟩, ?_, hA, ?_⟩
  · exact (claim_C3.1 (1/2) 1 4 (by norm_num) (by norm_num) (by norm_num))
  · exact claim_C3.2.1 (3/5) (4/5) (1/2) 100 1 (by norm_num)
  · exact (claim_C3.2.2 2 ![![1, 1], ![1, 1]] ![1, 1] 1 hA (by norm_num)).1

/-! ## Theorems — sample_size.py (calculate_sample_size) -/

namespace SampleSize

/-- `z_score_for_confidence` succeeds for every level in `(0, 1)`. -/
theorem z_score_ok (level : ℝ) (h0 : 0 < level) (h1 : level < 1) :
    ∃ z, Confidence.z_score_for_confidence level = .ok z := by
  unfold Confidence.z_score_for_confidence
  split_ifs
  any_goals exact ⟨_, rfl⟩
  unfold Confidence.probit
  rw [if_neg (by push_neg; constructor <;> linarith),
    if_neg (by push_neg; linarith)]
  exact ⟨_, rfl⟩

end SampleSize

/-- C5 counterexample: at `confidence_level = 0.95`,
`expected_accuracy = 0.85`, `margin_of_error = 0.05` and
`population_size = 1000000`, both the finite-population and the
infinite-population call return 196 — the finite-population result is
not strictly smaller (ceiling rounding erases the strict decrease of the
unrounded value). -/
theorem claim_C5_counterexample :
    SampleSize.calculate_sample_size 0.95 0.85 0.05 1000000 = .ok 196 ∧
    SampleSize.calculate_sample_size 0.95 0.85 0.05 0 = .ok 196 := by
  have hz : Confidence.z_score_for_confidence 0.95 = .ok 1.9600 := by
    unfold Confidence.z_score_for_confidence
    rw [if_neg (by norm_num), if_neg (by norm_num), if_neg (by norm_num),
      if_pos rfl]
  constructor <;>
  · unfold SampleSize.calculate_sample_size
    rw [if_neg (by norm_num), if_neg (by norm_num), if_neg (by norm_num), hz]
    simp only [Nat.zero_lt_succ, if_pos, if_true, Nat.lt_irrefl, if_false,
      Nat.cast_ofNat, lt_self_iff_false, zero_lt_one]
    norm_num [Int.ceil_eq_iff]

/-- C5 (amended): for statistical parameters in `(0,1)` and every
`population_size > 0`, the finite-population call returns an integer
less than or equal to the infinite-population call (the unrounded
corrected value strictly decreases, but ceiling rounding can make the
returned integers equal). -/
theorem claim_C5 (cl ea me : ℝ) (P : ℕ)
    (hcl0 : 0 < cl) (hcl1 : cl < 1) (hea0 : 0 < ea) (hea1 : ea < 1)
    (hme0 : 0 < me) (hme1 : me < 1) (hP : 0 < P) :
    ∃ a b : ℤ, SampleSize.calculate_sample_size cl ea me P = .ok a ∧
      SampleSize.calculate_sample_size cl ea me 0 = .ok b ∧ a ≤ b := by
  obtain ⟨z, hz⟩ := SampleSize.z_score_ok cl hcl0 hcl1
  have hval : ∀ Q : ℕ, SampleSize.calculate_sample_size cl ea me Q =
      .ok ⌈if 0 < Q then (z ^ 2 * ea * (1 - ea) / me ^ 2) /
          (1 + (z ^ 2 * ea * (1 - ea) / me ^ 2) / (Q : ℝ))
        else z ^ 2 * ea * (1 - ea) / me ^ 2⌉ := by
    intro Q
    unfold SampleSize.calculate_sample_size
    rw [if_neg (by push_neg; exact ⟨hea0, hea1⟩),
      if_neg (by push_neg; exact ⟨hme0, hme1⟩),
      if_neg (by push_neg; exact ⟨hcl0, hcl1⟩), hz]
  have hn0 : 0 ≤ z ^ 2 * ea * (1 - ea) / me ^ 2 :=
    div_nonneg (mul_nonneg (mul_nonneg (sq_nonneg z) hea0.le) (by linarith))
      (sq_nonneg me)
  have hPle : (z ^ 2 * ea * (1 - ea) / me ^ 2) /
      (1 + (z ^ 2 * ea * (1 - ea) / me ^ 2) / (P : ℝ)) ≤
      z ^ 2 * ea * (1 - ea) / me ^ 2 := by
    apply div_le_self hn0
    have : 0 ≤ (z ^ 2 * ea * (1 - ea) / me ^ 2) / (P : ℝ) :=
      div_nonneg hn0 (Nat.cast_nonneg P)
    linarith
  refine ⟨_, _, hval P, hval 0, ?_⟩
  rw [if_pos hP, if_neg (lt_irrefl 0)]
  exact Int.ceil_le_ceil hPle

/-- Witness for C5 (amended) at `(0.95, 0.85, 0.05)` with
`population_size = 100`. -/
theorem claim_C5_witness :
    ((0:ℝ) < 0.95 ∧ (0.95:ℝ) < 1 ∧ (0:ℝ) < 0.85 ∧ (0.85:ℝ) < 1 ∧
     (0:ℝ) < 0.05 ∧ (0.05:ℝ) < 1 ∧ 0 < 100) ∧
    (∃ a b : ℤ, SampleSize.calculate_sample_size 0.95 0.85 0.05 100 = .ok a ∧
      SampleSize.calculate_sample_size 0.95 0.85 0.05 0 = .ok b ∧ a ≤ b) :=
  ⟨by norm_num, claim_C5 0.95 0.85 0.05 100 (by norm_num) (by norm_num)
    (by norm_num) (by norm_num) (by norm_num) (by norm_num) (by norm_num)⟩

/-! ## Theorems — sample_size.py (allocate_proportional) -/

namespace SampleSize

/-- `pyRound` is the identity on integers. -/
theorem pyRound_intCast (n : ℤ) : pyRound (n : ℚ) = n := by
  unfold pyRound
  rw [Int.floor_intCast, sub_self, if_pos (by norm_num : (0:ℚ) < 1/2)]

/-- Looking up a key present in a keyed map of a nodup list returns the
mapped value. -/
theorem lookup_map_of_mem (f : ℤ → ℤ) (l : List ℤ) (a : ℤ)
    (ha : a ∈ l) (hn : l.Nodup) :
    (l.map (fun x => (x, f x))).lookup a = some (f a) := by
  induction l with
  | nil => cases ha
  | cons b t ih =>
    rcases List.mem_cons.mp ha with rfl | hat
    · simp [List.lookup]
    · have hab : a ≠ b := by
        rintro rfl
        exact (List.nodup_cons.mp hn).1 hat
      simp only [List.map_cons, List.lookup]
      rw [show (a == b) = false from beq_eq_false_iff_ne.mpr hab]
      exact ih hat (List.nodup_cons.mp hn).2

/-- The sorted key list is duplicate-free. -/
theorem sortedKeys_nodup (counts : List (ℤ × ℕ)) : (sortedKeys counts).Nodup := by
  unfold sortedKeys
  exact (List.mergeSort_perm _ _).symm.nodup (List.nodup_dedup _)

/-- A label with zero pixels and `min_per_class ≥ 2` ends with initial
allocation `max(1, round(0)) = 1`. -/
theorem initialAlloc_of_zero (total_n : ℕ) (counts : List (ℤ × ℕ)) (L : ℤ)
    (hL : countOf counts L = 0) : initialAlloc total_n counts L = 1 := by
  unfold initialAlloc
  rw [hL]
  rw [show ((total_n : ℚ) * ((0:ℕ) : ℚ) / (((counts.map Prod.snd).sum : ℕ) : ℚ))
      = ((0:ℤ) : ℚ) by norm_num]
  rw [pyRound_intCast]
  norm_num

end SampleSize

/-- C9 counterexample: with `total_n = 1`,
`class_pixel_counts = {0: 1, 1: 0}` and `min_per_class = 1`, the
zero-pixel class 1 is allocated 1 sample (its initial `max(1, round(0))`
allocation survives, because the cap `allocation[l] < min_per_class`
is `1 < 1`, which is false) and no warning is emitted — contradicting
the claim that a zero-pixel class always gets 0 samples and a warning
whenever `min_per_class ≥ 1`. -/
theorem claim_C9_counterexample :
    SampleSize.allocate_proportional 1 [(0, 1), (1, 0)] 1 =
      .ok ([(0, 1), (1, 1)], []) := by
  have hsk : SampleSize.sortedKeys [((0:ℤ), (1:ℕ)), (1, 0)] = [0, 1] := by
    unfold SampleSize.sortedKeys
    rw [show (([((0:ℤ), (1:ℕ)), (1, 0)].map Prod.fst).dedup) = [0, 1] from by decide]
    exact List.mergeSort_of_sorted (by decide)
  have hc0 : SampleSize.countOf [((0:ℤ), (1:ℕ)), (1, 0)] 0 = 1 := by decide
  have hc1 : SampleSize.countOf [((0:ℤ), (1:ℕ)), (1, 0)] 1 = 0 := by decide
  have hsum : (([((0:ℤ), (1:ℕ)), (1, 0)].map Prod.snd).sum) = 1 := by decide
  have hi0 : SampleSize.initialAlloc 1 [((0:ℤ), (1:ℕ)), (1, 0)] 0 = 1 := by
    unfold SampleSize.initialAlloc
    rw [hc0, hsum]
    rw [show (((1:ℕ) : ℚ) * (((1:ℕ)) : ℚ) / (((1:ℕ)) : ℚ)) = ((1:ℤ) : ℚ) by norm_num]
    rw [SampleSize.pyRound_intCast]
    exact max_self 1
  have hi1 : SampleSize.initialAlloc 1 [((0:ℤ), (1:ℕ)), (1, 0)] 1 = 1 :=
    SampleSize.initialAlloc_of_zero 1 _ 1 hc1
  have ha : ∀ l ∈ [(0:ℤ), 1], SampleSize.allocAfterMin 1 [((0:ℤ), (1:ℕ)), (1, 0)] 1 l = 1 := by
    intro l hl
    rcases List.mem_cons.mp hl with rfl | hl'
    · unfold SampleSize.allocAfterMin
      rw [hi0]
      norm_num
    · rcases List.mem_singleton.mp hl' with rfl
      unfold SampleSize.allocAfterMin
      rw [hi1]
      norm_num
  have ha0 := ha 0 (by norm_num)
  have ha1 := ha 1 (by norm_num)
  have hb : SampleSize.bumpedClasses 1 [((0:ℤ), (1:ℕ)), (1, 0)] 1 = [] := by
    unfold SampleSize.bumpedClasses
    rw [hsk]
    simp only [List.filter_cons, List.filter_nil, decide_eq_true_eq, hi0, hi1]
    norm_num
  have hcap : SampleSize.cappedClasses 1 [((0:ℤ), (1:ℕ)), (1, 0)] 1 = [] := by
    unfold SampleSize.cappedClasses
    rw [hsk]
    simp only [List.filter_cons, List.filter_nil, decide_eq_true_eq, hi0, hi1]
    norm_num
  have hadj : SampleSize.adjustable 1 [((0:ℤ), (1:ℕ)), (1, 0)] 1 = [] := by
    unfold SampleSize.adjustable
    rw [hsk]
    simp only [List.filter_cons, List.filter_nil, decide_eq_true_eq, ha0, ha1]
    norm_num
  have hf : ∀ l ∈ [(0:ℤ), 1], SampleSize.finalAlloc 1 [((0:ℤ), (1:ℕ)), (1, 0)] 1 l = 1 := by
    intro l hl
    unfold SampleSize.finalAlloc
    rw [hadj]
    simp only [ne_eq, not_true_eq_false, List.not_mem_nil, and_false, false_and,
      if_false]
    exact ha l hl
  unfold SampleSize.allocate_proportional
  rw [if_neg (by simp), if_neg (by rw [hsum]; norm_num), hsk, hb, hcap]
  simp only [List.map_cons, List.map_nil, hf 0 (by norm_num), hf 1 (by norm_num),
    ne_eq, not_true_eq_false, if_neg, ite_false]
  norm_num

/-- C9 (amended): in `allocate_proportional`, for every input with
positive total pixel count, a class label `L` with pixel count 0, and
`min_per_class ≥ 2` (not merely `≥ 1`: with `min_per_class = 1` the
zero-pixel class keeps its initial allocation of 1 and no warning is
emitted), the returned allocation maps `L` to 0 samples and a warning
naming `L` is appended — so returned allocations are not guaranteed to
be ≥ 1 per class. -/
theorem claim_C9 (total_n : ℕ) (counts : List (ℤ × ℕ)) (minPC : ℕ) (L : ℤ)
    (hsum : (counts.map Prod.snd).sum ≠ 0) (hL : L ∈ SampleSize.sortedKeys counts)
    (hcL : SampleSize.countOf counts L = 0) (hmin : 2 ≤ minPC) :
    ∃ alloc warns,
      SampleSize.allocate_proportional total_n counts minPC = .ok (alloc, warns) ∧
      alloc.lookup L = some 0 ∧
      SampleSize.AllocWarning.capped L 0 minPC ∈ warns := by
  have hne : counts ≠ [] := by
    rintro rfl
    simp [SampleSize.sortedKeys] at hL
  have hi : SampleSize.initialAlloc total_n counts L = 1 :=
    SampleSize.initialAlloc_of_zero total_n counts L hcL
  have haL : SampleSize.allocAfterMin total_n counts minPC L = 0 := by
    unfold SampleSize.allocAfterMin
    rw [hi, hcL, if_pos (by exact_mod_cast hmin.trans_lt' (by norm_num)),
      if_neg (by omega)]
    norm_num
  have hnotadj : L ∉ SampleSize.adjustable total_n counts minPC := by
    intro hmem
    have := (List.mem_filter.mp hmem).2
    rw [decide_eq_true_eq] at this
    rw [haL] at this
    omega
  have hfin : SampleSize.finalAlloc total_n counts minPC L = 0 := by
    unfold SampleSize.finalAlloc
    rw [if_neg]
    · exact haL
    · rintro ⟨-, -, -, -, -, hmem⟩
      exact hnotadj hmem
  refine ⟨(SampleSize.sortedKeys counts).map
      (fun l => (l, SampleSize.finalAlloc total_n counts minPC l)),
    (SampleSize.cappedClasses total_n counts minPC).map
      (fun l => SampleSize.AllocWarning.capped l (SampleSize.countOf counts l) minPC) ++
      (if SampleSize.bumpedClasses total_n counts minPC ≠ [] then
        [SampleSize.AllocWarning.bumped
          (SampleSize.bumpedClasses total_n counts minPC) minPC]
      else []), ?_, ?_, ?_⟩
  · unfold SampleSize.allocate_proportional
    rw [if_neg hne, if_neg hsum]
  · rw [SampleSize.lookup_map_of_mem _ _ _ hL (SampleSize.sortedKeys_nodup counts),
      hfin]
  · apply List.mem_append_left
    apply List.mem_map.mpr
    refine ⟨L, ?_, by rw [hcL]⟩
    apply List.mem_filter.mpr
    refine ⟨hL, ?_⟩
    rw [decide_eq_true_eq, hi, hcL]
    omega

/-- Witness for C9 (amended) at `total_n = 10`,
`class_pixel_counts = {0: 10, 1: 0}`, `min_per_class = 2`. -/
theorem claim_C9_witness :
    ((([((0:ℤ), (10:ℕ)), (1, 0)].map Prod.snd).sum ≠ 0) ∧
     (1:ℤ) ∈ SampleSize.sortedKeys [((0:ℤ), (10:ℕ)), (1, 0)] ∧
     SampleSize.countOf [((0:ℤ), (10:ℕ)), (1, 0)] 1 = 0 ∧ 2 ≤ 2) ∧
    (∃ alloc warns,
      SampleSize.allocate_proportional 10 [((0:ℤ), (10:ℕ)), (1, 0)] 2 =
        .ok (alloc, warns) ∧
      alloc.lookup 1 = some 0 ∧
      SampleSize.AllocWarning.capped 1 0 2 ∈ warns) := by
  have h1 : (([((0:ℤ), (10:ℕ)), (1, 0)].map Prod.snd).sum) ≠ 0 := by decide
  have h2 : (1:ℤ) ∈ SampleSize.sortedKeys [((0:ℤ), (10:ℕ)), (1, 0)] := by
    unfold SampleSize.sortedKeys
    rw [List.mem_mergeSort]
    decide
  have h3 : SampleSize.countOf [((0:ℤ), (10:ℕ)), (1, 0)] 1 = 0 := by decide
  exact ⟨⟨h1, h2, h3, le_refl 2⟩, claim_C9 10 _ 2 1 h1 h2 h3 (le_refl 2)⟩

/-! ## Theorems — sampling.py -/

namespace Sampling

/-- Euclidean distance is symmetric. -/
theorem ptDist_symm (a b : Pt) : ptDist a b = ptDist b a := by
  unfold ptDist
  rw [show (a.1 - b.1) ^ 2 = (b.1 - a.1) ^ 2 by ring,
    show (a.2 - b.2) ^ 2 = (b.2 - a.2) ^ 2 by ring]

/-- Invariant of the greedy selection loop: if the already-selected
points are pairwise `≥ d` apart and all `≥ d` from the existing points,
the same holds for the final selection. -/
theorem selectLoop_invariant (d : ℝ) (existing : List Pt) (n : ℕ) :
    ∀ (cands sel : List Pt),
      sel.Pairwise (fun a b => d ≤ ptDist a b) →
      (∀ a ∈ sel, ∀ e ∈ existing, d ≤ ptDist a e) →
      (selectLoop d existing n cands sel).Pairwise (fun a b => d ≤ ptDist a b) ∧
      (∀ a ∈ selectLoop d existing n cands sel, ∀ e ∈ existing, d ≤ ptDist a e) := by
  intro cands
  induction cands with
  | nil =>
    intro sel h1 h2
    simpa only [selectLoop] using ⟨h1, h2⟩
  | cons c rest ih =>
    intro sel h1 h2
    simp only [selectLoop]
    split_ifs with hfull hsame hex
    · exact ⟨h1, h2⟩
    · exact ih sel h1 h2
    · exact ih sel h1 h2
    · apply ih
      · rw [List.pairwise_append]
        refine ⟨h1, List.pairwise_singleton _ _, ?_⟩
        intro a ha b hb
        rcases List.mem_singleton.mp hb with rfl
        push_neg at hsame
        rw [ptDist_symm]
        exact hsame a ha
      · intro a ha e he
        rcases List.mem_append.mp ha with ha' | hc
        · exact h2 a ha' e he
        · rcases List.mem_singleton.mp hc with rfl
          push_neg at hex
          exact hex e he

/-- The coordinates of points built by `mkPoints` come from the
selected list. -/
theorem mkPoints_coord_mem (cls : ℤ) :
    ∀ (pid : ℕ) (sel : List Pt) (q : SamplePoint),
      q ∈ mkPoints cls pid sel → (q.x, q.y) ∈ sel := by
  intro pid sel
  induction sel generalizing pid with
  | nil => intro q hq; cases hq
  | cons xy rest ih =>
    intro q hq
    rcases List.mem_cons.mp hq with rfl | hq'
    · exact List.mem_cons_self _ _
    · exact List.mem_cons_of_mem _ (ih (pid + 1) q hq')

/-- Every point built by `mkPoints` carries the class as its stratum. -/
theorem mkPoints_stratum (cls : ℤ) :
    ∀ (pid : ℕ) (sel : List Pt) (q : SamplePoint),
      q ∈ mkPoints cls pid sel → q.stratum_class = cls := by
  intro pid sel
  induction sel generalizing pid with
  | nil => intro q hq; cases hq
  | cons xy rest ih =>
    intro q hq
    rcases List.mem_cons.mp hq with rfl | hq'
    · rfl
    · exact ih (pid + 1) q hq'

/-- A pairwise distance bound on coordinates transfers to the built
sample points. -/
theorem mkPoints_pairwise (cls : ℤ) (d : ℝ) :
    ∀ (pid : ℕ) (sel : List Pt),
      sel.Pairwise (fun a b => d ≤ ptDist a b) →
      (mkPoints cls pid sel).Pairwise
        (fun p q => d ≤ ptDist (p.x, p.y) (q.x, q.y)) := by
  intro pid sel
  induction sel generalizing pid with
  | nil => intro _; exact List.Pairwise.nil
  | cons xy rest ih =>
    intro h
    obtain ⟨hhead, htail⟩ := List.pairwise_cons.mp h
    refine List.Pairwise.cons ?_ (ih (pid + 1) htail)
    intro q hq
    have := hhead (q.x, q.y) (mkPoints_coord_mem cls (pid + 1) rest q hq)
    simpa using this

/-- Main distance invariant of the per-class loop: starting from a set
of existing coordinates that are pairwise `≥ d` apart, all generated
points are pairwise `≥ d` apart and `≥ d` from every existing
coordinate. -/
theorem generateLoop_dist (cand : ℤ → Option (List Pt)) (npc : ℤ → ℕ)
    (d : ℝ) (shuffle : ℕ → List Pt → List Pt) (hd : 0 < d) :
    ∀ (classes : List ℤ) (idx : ℕ) (existing : List Pt) (pid : ℕ),
      existing.Pairwise (fun a b => d ≤ ptDist a b) →
      (generateLoop cand npc d shuffle classes idx existing pid).1.Pairwise
        (fun p q => d ≤ ptDist (p.x, p.y) (q.x, q.y)) ∧
      (∀ p ∈ (generateLoop cand npc d shuffle classes idx existing pid).1,
        ∀ e ∈ existing, d ≤ ptDist (p.x, p.y) e) := by
  intro classes
  induction classes with
  | nil =>
    intro idx existing pid hex
    simp [generateLoop]
  | cons c rest ih =>
    intro idx existing pid hex
    simp only [generateLoop]
    cases hcand : cand c with
    | none =>
      simpa only using ih (idx + 1) existing pid hex
    | some coords =>
      dsimp only
      rcases eq_or_ne coords [] with rfl | hemp
      · rw [if_pos rfl]
        exact ih (idx + 1) existing pid hex
      · rw [if_neg hemp, if_pos hd]
        obtain ⟨spair, sfar⟩ := selectLoop_invariant d existing (npc c)
          (shuffle idx coords) [] List.Pairwise.nil (by intro a ha; cases ha)
        set selected := selectLoop d existing (npc c) (shuffle idx coords) []
          with hsel
        have hex' : (existing ++ selected).Pairwise (fun a b => d ≤ ptDist a b) := by
          rw [List.pairwise_append]
          refine ⟨hex, spair, ?_⟩
          intro a ha b hb
          rw [ptDist_symm]
          exact sfar b hb a ha
        obtain ⟨rpair, rfar⟩ := ih (idx + 1) (existing ++ selected)
          (pid + selected.length) hex'
        constructor
        · rw [List.pairwise_append]
          refine ⟨mkPoints_pairwise c d pid selected spair, rpair, ?_⟩
          intro p hp q hq
          have hqe := rfar q hq (p.x, p.y)
            (List.mem_append_right _ (mkPoints_coord_mem c pid selected p hp))
          rw [ptDist_symm]
          exact hqe
        · intro p hp e he
          rcases List.mem_append.mp hp with hp' | hp'
          · exact sfar (p.x, p.y) (mkPoints_coord_mem c pid selected p hp') e he
          · exact rfar p hp' e (List.mem_append_left _ he)

end Sampling

/-- C8: for every run of `generate_stratified_random` with
`min_distance > 0`, every seed (modelled by quantifying over all shuffle
oracles) and any candidate pools, every pair of distinct accepted points
in the returned list — same class or different classes — is at Euclidean
distance ≥ `min_distance` (exactly, hence within the 1e-6 tolerance). -/
theorem claim_C8 (cand : ℤ → Option (List Sampling.Pt)) (npc : List (ℤ × ℕ))
    (d : ℝ) (shuffle : ℕ → List Sampling.Pt → List Sampling.Pt) (hd : 0 < d) :
    (Sampling.generate_stratified_random cand npc d shuffle).1.Pairwise
      (fun p q => d ≤ Sampling.ptDist (p.x, p.y) (q.x, q.y)) :=
  (Sampling.generateLoop_dist cand (Sampling.npcVal npc) d shuffle hd
    (Sampling.sortedKeys npc) 0 [] 1 List.Pairwise.nil).1

/-- Witness for C8 at `min_distance = 1` with an empty candidate map. -/
theorem claim_C8_witness :
    (0:ℝ) < 1 ∧
    (Sampling.generate_stratified_random (fun _ => none) [(3, 2)] 1
        (fun _ l => l)).1.Pairwise
      (fun p q => 1 ≤ Sampling.ptDist (p.x, p.y) (q.x, q.y)) :=
  ⟨by norm_num, claim_C8 (fun _ => none) [(3, 2)] 1 (fun _ l => l) (by norm_num)⟩

namespace Sampling

/-- Every generated point's stratum and every warning's class come from
the iterated class list. -/
theorem generateLoop_classes (cand : ℤ → Option (List Pt)) (npc : ℤ → ℕ)
    (d : ℝ) (shuffle : ℕ → List Pt → List Pt) :
    ∀ (classes : List ℤ) (idx : ℕ) (existing : List Pt) (pid : ℕ),
      (∀ p ∈ (generateLoop cand npc d shuffle classes idx existing pid).1,
        p.stratum_class ∈ classes) ∧
      (∀ w ∈ (generateLoop cand npc d shuffle classes idx existing pid).2,
        w.cls ∈ classes) := by
  intro classes
  induction classes with
  | nil =>
    intro idx existing pid
    simp [generateLoop]
  | cons c rest ih =>
    intro idx existing pid
    simp only [generateLoop]
    cases hcand : cand c with
    | none =>
      dsimp only
      constructor
      · intro p hp
        exact List.mem_cons_of_mem _ ((ih (idx + 1) existing pid).1 p hp)
      · intro w hw
        rcases List.mem_cons.mp hw with rfl | hw'
        · exact List.mem_cons_self _ _
        · exact List.mem_cons_of_mem _ ((ih (idx + 1) existing pid).2 w hw')
    | some coords =>
      dsimp only
      rcases eq_or_ne coords [] with rfl | hemp
      · rw [if_pos rfl]
        constructor
        · intro p hp
          exact List.mem_cons_of_mem _ ((ih (idx + 1) existing pid).1 p hp)
        · intro w hw
          rcases List.mem_cons.mp hw with rfl | hw'
          · exact List.mem_cons_self _ _
          · exact List.mem_cons_of_mem _ ((ih (idx + 1) existing pid).2 w hw')
      · rw [if_neg hemp]
        constructor
        · intro p hp
          rcases List.mem_append.mp hp with hp' | hp'
          · rw [mkPoints_stratum c pid _ p hp']
            exact List.mem_cons_self _ _
          · exact List.mem_cons_of_mem _ ((ih (idx + 1) _ _).1 p hp')
        · intro w hw
          rcases List.mem_append.mp hw with hw' | hw'
          · revert hw'
            split_ifs
            all_goals intro hw''
            all_goals
              first
                | (rcases List.mem_singleton.mp hw'' with rfl
                   exact List.mem_cons_self _ _)
                | cases hw''
          · exact List.mem_cons_of_mem _ ((ih (idx + 1) _ _).2 w hw')

end Sampling

/-- C10: `generate_stratified_random` iterates only the sorted keys of
`n_per_class`: every generated point's stratum and every warning's
class is a key of `n_per_class`; in particular, a class that appears in
`candidates_per_class` but not in `n_per_class` produces no points and
no warning — such candidate pools are silently ignored. -/
theorem claim_C10 (cand : ℤ → Option (List Sampling.Pt)) (npc : List (ℤ × ℕ))
    (d : ℝ) (shuffle : ℕ → List Sampling.Pt → List Sampling.Pt) :
    (∀ p ∈ (Sampling.generate_stratified_random cand npc d shuffle).1,
      p.stratum_class ∈ npc.map Prod.fst) ∧
    (∀ w ∈ (Sampling.generate_stratified_random cand npc d shuffle).2,
      w.cls ∈ npc.map Prod.fst) ∧
    (∀ c : ℤ, c ∉ npc.map Prod.fst →
      (∀ p ∈ (Sampling.generate_stratified_random cand npc d shuffle).1,
        p.stratum_class ≠ c) ∧
      (∀ w ∈ (Sampling.generate_stratified_random cand npc d shuffle).2,
        w.cls ≠ c)) := by
  have hkeys : ∀ a : ℤ, a ∈ Sampling.sortedKeys npc → a ∈ npc.map Prod.fst := by
    intro a ha
    unfold Sampling.sortedKeys at ha
    rw [List.mem_mergeSort] at ha
    exact List.mem_dedup.mp ha
  obtain ⟨hp, hw⟩ := Sampling.generateLoop_classes cand (Sampling.npcVal npc) d
    shuffle (Sampling.sortedKeys npc) 0 [] 1
  refine ⟨?_, ?_, ?_⟩
  · intro p hmem
    exact hkeys _ (hp p hmem)
  · intro w hmem
    exact hkeys _ (hw w hmem)
  · intro c hc
    constructor
    · intro p hmem h
      exact hc (h ▸ hkeys _ (hp p hmem))
    · intro w hmem h
      exact hc (h ▸ hkeys _ (hw w hmem))

/-- Witness for C10: a run with `n_per_class = {5: 1}` over a candidate
map that offers candidates for every class; the single generated point
belongs to class 5, and class 7 (which has candidates but is not
requested) yields nothing. -/
theorem claim_C10_witness :
    (⟨1, 0, 0, 5⟩ : Sampling.SamplePoint) ∈
      (Sampling.generate_stratified_random (fun _ => some [((0:ℝ), (0:ℝ))])
        [(5, 1)] 0 (fun _ l => l)).1 ∧
    (⟨1, 0, 0, 5⟩ : Sampling.SamplePoint).stratum_class ∈
      ([((5:ℤ), (1:ℕ))].map Prod.fst) ∧
    (7:ℤ) ∉ ([((5:ℤ), (1:ℕ))].map Prod.fst) ∧
    (∀ p ∈ (Sampling.generate_stratified_random (fun _ => some [((0:ℝ), (0:ℝ))])
        [(5, 1)] 0 (fun _ l => l)).1, p.stratum_class ≠ 7) := by
  have h7 : (7:ℤ) ∉ ([((5:ℤ), (1:ℕ))].map Prod.fst) := by decide
  have hsk : Sampling.sortedKeys [((5:ℤ), (1:ℕ))] = [5] := by
    unfold Sampling.sortedKeys
    rw [show (([((5:ℤ), (1:ℕ))].map Prod.fst).dedup) = [5] from by decide]
    simp
  have hnv : Sampling.npcVal [((5:ℤ), (1:ℕ))] 5 = 1 := by decide
  have hmem : (⟨1, 0, 0, 5⟩ : Sampling.SamplePoint) ∈
      (Sampling.generate_stratified_random (fun _ => some [((0:ℝ), (0:ℝ))])
        [(5, 1)] 0 (fun _ l => l)).1 := by
    unfold Sampling.generate_stratified_random
    rw [hsk]
    simp only [Sampling.generateLoop]
    rw [if_neg (by simp : ¬([((0:ℝ), (0:ℝ))] : List Sampling.Pt) = []),
      if_neg (lt_irrefl (0:ℝ)), hnv]
    simp [Sampling.mkPoints]
  exact ⟨hmem,
    (claim_C10 (fun _ => some [((0:ℝ), (0:ℝ))]) [(5, 1)] 0 (fun _ l => l)).1
      _ hmem, h7,
    ((claim_C10 (fun _ => some [((0:ℝ), (0:ℝ))]) [(5, 1)] 0 (fun _ l => l)).2.2
      7 h7).1⟩

end GeoAccuRate
